import Mathlib

/-!
Shallow embedding of the offline outbox and synchronization engine of
`service-worker.js`: the IndexedDB outbox store (`outboxAdd`, `outboxDelete`,
`outboxCount`, `outboxAll`), the `meta` store (of which the program only ever
uses the `lastSync` key), and the `flushQueue` drain loop together with the
status / progress / done broadcasts it emits.
-/

set_option autoImplicit false

namespace SW

/-- A pending operation as stored in the `outbox` object store:
`{ key, api, params, createdAt, tries }`, with `key` assigned by the store's
auto-increment counter on insertion. -/
structure PendingOp where
  key : Nat
  api : String
  params : List (String × String)
  createdAt : Nat
  tries : Nat
deriving DecidableEq

/-- The durable state: the `outbox` object store, kept in ascending key order
(the order an IndexedDB cursor iterates in), the auto-increment counter
(IndexedDB starts handing out keys at 1), and the `meta` store restricted to
the single key `lastSync`, the only one the program reads or writes. -/
structure Store where
  outbox : List PendingOp
  nextKey : Nat
  lastSync : Option Nat
deriving DecidableEq

def initStore : Store := { outbox := [], nextKey := 1, lastSync := none }

/-- `outboxAdd(item)`:
`st.add({ ...item, createdAt: Date.now(), tries: item.tries ?? 0 })`. -/
def outboxAdd (st : Store) (api : String) (params : List (String × String))
    (now : Nat) (tries : Option Nat) : Store :=
  { st with
      outbox := st.outbox ++
        [{ key := st.nextKey, api := api, params := params,
           createdAt := now, tries := tries.getD 0 }],
      nextKey := st.nextKey + 1 }

/-- `outboxDelete(key)`: `st.delete(key)` (a no-op when the key is absent). -/
def outboxDelete (st : Store) (k : Nat) : Store :=
  { st with outbox := st.outbox.filter (fun op => op.key != k) }

/-- `outboxCount()`: `st.count()`. -/
def outboxCount (st : Store) : Nat := st.outbox.length

/-- `outboxAll()`: full cursor scan, ascending key order. -/
def outboxAll (st : Store) : List PendingOp := st.outbox

/-- `metaSet("lastSync", v)`. -/
def metaSet (st : Store) (v : Nat) : Store := { st with lastSync := some v }

/-- `metaGet("lastSync")`. -/
def metaGet (st : Store) : Option Nat := st.lastSync

/-- The `ENQUEUE` message handler:
`outboxAdd({ api: payload.api, params: payload.params, tries: 0 })`. -/
def enqueue (st : Store) (api : String) (params : List (String × String))
    (now : Nat) : Store :=
  outboxAdd st api params now (some 0)

/-- The fields of a decoded JSON response body that `flushQueue` consults:
whether the value is truthy, whether `data.ok` is truthy, and `data.code`. -/
structure JsBody where
  truthy : Bool
  okField : Bool
  code : Option String
deriving DecidableEq

/-- `{}`: truthy, `ok` undefined (falsy), `code` undefined. -/
def emptyObject : JsBody := { truthy := true, okField := false, code := none }

/-- `await res.json().catch(() => ({}))`: a body that fails to decode
(`none`) is replaced by the empty object; decoding never raises. -/
def bodyOrEmpty : Option JsBody → JsBody
  | none => emptyObject
  | some b => b

/-- Outcome of one `fetch` of an operation's URL: either the promise rejects
(transport failure) or a response arrives carrying `res.ok` and a body that
may fail to decode as JSON (`none`). -/
inductive FetchResult where
  | throw : FetchResult
  | response (httpOk : Bool) (rawBody : Option JsBody) : FetchResult
deriving DecidableEq

/-- `res.ok && data && (data.ok || data.code === "already_marked")`. -/
def classifySuccess (httpOk : Bool) (data : JsBody) : Bool :=
  httpOk && data.truthy && (data.okField || data.code == some "already_marked")

/-- The three `info` strings `flushQueue` can attach to a status broadcast:
"Keine ausstehenden Einträge", "Synchronisiere… (done/total)",
"Synchronisierung abgeschlossen". -/
inductive Info where
  | nothingPending : Info
  | syncing (done total : Nat) : Info
  | finished : Info
deriving DecidableEq

/-- Messages posted to the clients by `broadcast`: `QUEUE_STATUS` (with the
pending count and `lastSync` read at emission time), `SYNC_PROGRESS`, and
`SYNC_DONE`. -/
inductive Event where
  | queueStatus (pending : Nat) (lastSync : Option Nat) (info : Option Info) : Event
  | syncProgress (done total : Nat) : Event
  | syncDone : Event
deriving DecidableEq

/-- Result of a drain (or of its inner loop): the store it leaves behind, the
events broadcast, the final `done` counter, and the trace of operations whose
`fetch` was actually issued, in order. -/
structure FlushOut where
  store : Store
  events : List Event
  done : Nat
  attempted : List PendingOp
deriving DecidableEq

/-- The `for (const item of items)` loop of `flushQueue`, run over the
snapshot `items` taken by the single `outboxAll()` call. The remote is an
oracle from the request the code builds (`api` plus `params` as query
parameters) to the `fetch` outcome. On a transport failure the loop `break`s;
on any completed response — success or logical rejection, the two branches of
the source are identical — it deletes the item, increments `done`, and emits
a progress event. -/
def flushLoop (remote : String → List (String × String) → FetchResult)
    (total : Nat) : List PendingOp → Nat → Store → FlushOut
  | [], done, st => ⟨st, [], done, []⟩
  | item :: rest, done, st =>
    match remote item.api item.params with
    | FetchResult.throw => ⟨st, [], done, [item]⟩
    | FetchResult.response httpOk rawBody =>
      if classifySuccess httpOk (bodyOrEmpty rawBody) then
        let r := flushLoop remote total rest (done + 1) (outboxDelete st item.key)
        ⟨r.store, Event.syncProgress (done + 1) total :: r.events, r.done,
          item :: r.attempted⟩
      else
        let r := flushLoop remote total rest (done + 1) (outboxDelete st item.key)
        ⟨r.store, Event.syncProgress (done + 1) total :: r.events, r.done,
          item :: r.attempted⟩

/-- `flushQueue()`: snapshot the outbox once; if empty, emit one status and
return (skipping the `lastSync` write and the done broadcast); otherwise emit
the initial status, run the loop, write `lastSync`, and emit the final status
and `SYNC_DONE`. -/
def flushQueue (remote : String → List (String × String) → FetchResult)
    (now : Nat) (st : Store) : FlushOut :=
  let items := outboxAll st
  let total := items.length
  if total = 0 then
    ⟨st, [Event.queueStatus (outboxCount st) (metaGet st) (some Info.nothingPending)],
      0, []⟩
  else
    let r := flushLoop remote total items 0 st
    let st2 := metaSet r.store now
    ⟨st2,
      Event.queueStatus (outboxCount st) (metaGet st) (some (Info.syncing 0 total)) ::
        (r.events ++
          [Event.queueStatus (outboxCount st2) (metaGet st2) (some Info.finished),
           Event.syncDone]),
      r.done, r.attempted⟩

/-- Sequential deletion of a list of keys, in order — the shape the loop's
`outboxDelete` calls take when composed. -/
def removeKeys : List Nat → List PendingOp → List PendingOp
  | [], l => l
  | k :: ks, l => removeKeys ks (l.filter (fun op => op.key != k))

/-- The progress events `notifyProgress` emits for `n` consecutive completed
operations, starting from a `done` counter value. -/
def progressEvents : Nat → Nat → Nat → List Event
  | _, _, 0 => []
  | done, total, n + 1 =>
    Event.syncProgress (done + 1) total :: progressEvents (done + 1) total n

/-- Overwrite the (never consulted) retry counter of an operation. -/
def setTries (n : Nat) (op : PendingOp) : PendingOp := { op with tries := n }

/-- Well-formedness of the store: outbox keys strictly ascending (insertion
order is ascending auto-assigned key order) and below the auto-increment
counter. -/
def StoreWF (st : Store) : Prop :=
  st.outbox.Pairwise (fun a b => a.key < b.key) ∧
    ∀ op ∈ st.outbox, op.key < st.nextKey

/-- The store-mutating transitions the service worker can perform: the
`ENQUEUE` message, a delete, and a drain (triggered by `FLUSH` or the sync
event). -/
inductive Step : Store → Store → Prop where
  | enqueue (st : Store) (api : String) (params : List (String × String))
      (now : Nat) : Step st (enqueue st api params now)
  | remove (st : Store) (k : Nat) : Step st (outboxDelete st k)
  | flush (st : Store) (remote : String → List (String × String) → FetchResult)
      (now : Nat) : Step st (flushQueue remote now st).store

/-- Stores reachable from the fresh database through the worker's operations. -/
inductive Reachable : Store → Prop where
  | init : Reachable initStore
  | step {st st' : Store} : Reachable st → Step st st' → Reachable st'

/-! ### Basic equations of the drain loop -/

theorem flushLoop_nil (remote : String → List (String × String) → FetchResult)
    (total done : Nat) (st : Store) :
    flushLoop remote total [] done st = ⟨st, [], done, []⟩ := rfl

theorem flushLoop_cons_throw
    (remote : String → List (String × String) → FetchResult)
    (total : Nat) (item : PendingOp) (rest : List PendingOp) (done : Nat)
    (st : Store) (h : remote item.api item.params = FetchResult.throw) :
    flushLoop remote total (item :: rest) done st = ⟨st, [], done, [item]⟩ := by
  simp [flushLoop, h]

theorem flushLoop_cons_response
    (remote : String → List (String × String) → FetchResult)
    (total : Nat) (item : PendingOp) (rest : List PendingOp) (done : Nat)
    (st : Store) (httpOk : Bool) (rawBody : Option JsBody)
    (h : remote item.api item.params = FetchResult.response httpOk rawBody) :
    flushLoop remote total (item :: rest) done st =
      ⟨(flushLoop remote total rest (done + 1) (outboxDelete st item.key)).store,
        Event.syncProgress (done + 1) total ::
          (flushLoop remote total rest (done + 1) (outboxDelete st item.key)).events,
        (flushLoop remote total rest (done + 1) (outboxDelete st item.key)).done,
        item ::
          (flushLoop remote total rest (done + 1) (outboxDelete st item.key)).attempted⟩ := by
  simp only [flushLoop, h]
  split <;> rfl

theorem flushLoop_store_nextKey
    (remote : String → List (String × String) → FetchResult) (total : Nat) :
    ∀ (items : List PendingOp) (done : Nat) (st : Store),
      (flushLoop remote total items done st).store.nextKey = st.nextKey := by
  intro items
  induction items with
  | nil => intro done st; rfl
  | cons item rest ih =>
    intro done st
    cases h : remote item.api item.params with
    | throw => rw [flushLoop_cons_throw remote total item rest done st h]
    | response httpOk rawBody =>
      rw [flushLoop_cons_response remote total item rest done st httpOk rawBody h]
      exact ih (done + 1) (outboxDelete st item.key)

theorem flushLoop_store_lastSync
    (remote : String → List (String × String) → FetchResult) (total : Nat) :
    ∀ (items : List PendingOp) (done : Nat) (st : Store),
      (flushLoop remote total items done st).store.lastSync = st.lastSync := by
  intro items
  induction items with
  | nil => intro done st; rfl
  | cons item rest ih =>
    intro done st
    cases h : remote item.api item.params with
    | throw => rw [flushLoop_cons_throw remote total item rest done st h]
    | response httpOk rawBody =>
      rw [flushLoop_cons_response remote total item rest done st httpOk rawBody h]
      exact ih (done + 1) (outboxDelete st item.key)

theorem flushLoop_store_outbox_sublist
    (remote : String → List (String × String) → FetchResult) (total : Nat) :
    ∀ (items : List PendingOp) (done : Nat) (st : Store),
      ((flushLoop remote total items done st).store.outbox).Sublist st.outbox := by
  intro items
  induction items with
  | nil => intro done st; exact List.Sublist.refl _
  | cons item rest ih =>
    intro done st
    cases h : remote item.api item.params with
    | throw =>
      rw [flushLoop_cons_throw remote total item rest done st h]
    | response httpOk rawBody =>
      rw [flushLoop_cons_response remote total item rest done st httpOk rawBody h]
      exact (ih (done + 1) (outboxDelete st item.key)).trans
        (List.filter_sublist st.outbox)

theorem flushLoop_attempted_front
    (remote : String → List (String × String) → FetchResult) (total : Nat) :
    ∀ (items : List PendingOp) (done : Nat) (st : Store),
      (flushLoop remote total items done st).attempted <+: items := by
  intro items
  induction items with
  | nil => intro done st; exact ⟨[], rfl⟩
  | cons item rest ih =>
    intro done st
    cases h : remote item.api item.params with
    | throw =>
      rw [flushLoop_cons_throw remote total item rest done st h]
      exact ⟨rest, rfl⟩
    | response httpOk rawBody =>
      rw [flushLoop_cons_response remote total item rest done st httpOk rawBody h]
      obtain ⟨t, ht⟩ := ih (done + 1) (outboxDelete st item.key)
      exact ⟨t, by rw [List.cons_append, ht]⟩

theorem flushLoop_events_shape
    (remote : String → List (String × String) → FetchResult) (total : Nat) :
    ∀ (items : List PendingOp) (done : Nat) (st : Store),
      ∀ e ∈ (flushLoop remote total items done st).events,
        ∃ d, e = Event.syncProgress d total := by
  intro items
  induction items with
  | nil => intro done st e he; exact absurd he (by simp [flushLoop_nil])
  | cons item rest ih =>
    intro done st e he
    cases h : remote item.api item.params with
    | throw =>
      rw [flushLoop_cons_throw remote total item rest done st h] at he
      exact absurd he (by simp)
    | response httpOk rawBody =>
      rw [flushLoop_cons_response remote total item rest done st httpOk rawBody h] at he
      rcases List.mem_cons.mp he with h1 | h2
      · exact ⟨done + 1, h1⟩
      · exact ih (done + 1) (outboxDelete st item.key) e h2

/-! ### Full runs of the loop: no transport failure, and halt at the first one -/

theorem flushLoop_all_response
    (remote : String → List (String × String) → FetchResult) (total : Nat) :
    ∀ (items : List PendingOp) (done : Nat) (st : Store),
      (∀ it ∈ items, remote it.api it.params ≠ FetchResult.throw) →
      flushLoop remote total items done st =
        ⟨⟨removeKeys (items.map PendingOp.key) st.outbox, st.nextKey, st.lastSync⟩,
          progressEvents done total items.length, done + items.length, items⟩ := by
  intro items
  induction items with
  | nil => intro done st _; rfl
  | cons item rest ih =>
    intro done st hresp
    cases h : remote item.api item.params with
    | throw => exact absurd h (hresp item (List.mem_cons_self item rest))
    | response httpOk rawBody =>
      rw [flushLoop_cons_response remote total item rest done st httpOk rawBody h,
        ih (done + 1) (outboxDelete st item.key)
          (fun it hit => hresp it (List.mem_cons_of_mem item hit))]
      have harith : done + 1 + rest.length = done + (rest.length + 1) := by omega
      rw [harith]
      rfl

theorem flushLoop_halt
    (remote : String → List (String × String) → FetchResult) (total : Nat) :
    ∀ (items : List PendingOp) (i done : Nat) (st : Store) (hi : i < items.length),
      remote (items.get ⟨i, hi⟩).api (items.get ⟨i, hi⟩).params = FetchResult.throw →
      (∀ (j : Nat) (hj : j < i),
        remote (items.get ⟨j, Nat.lt_trans hj hi⟩).api
          (items.get ⟨j, Nat.lt_trans hj hi⟩).params ≠ FetchResult.throw) →
      flushLoop remote total items done st =
        ⟨⟨removeKeys ((items.take i).map PendingOp.key) st.outbox,
            st.nextKey, st.lastSync⟩,
          progressEvents done total i, done + i, items.take (i + 1)⟩ := by
  intro items
  induction items with
  | nil => intro i done st hi _ _; exact absurd hi (Nat.not_lt_zero i)
  | cons item rest ih =>
    intro i done st hi hthrow hbefore
    cases i with
    | zero => exact flushLoop_cons_throw remote total item rest done st hthrow
    | succ i =>
      cases h : remote item.api item.params with
      | throw => exact absurd h (hbefore 0 (Nat.succ_pos i))
      | response httpOk rawBody =>
        rw [flushLoop_cons_response remote total item rest done st httpOk rawBody h,
          ih i (done + 1) (outboxDelete st item.key) (Nat.lt_of_succ_lt_succ hi)
            hthrow (fun j hj => hbefore (j + 1) (Nat.succ_lt_succ hj))]
        have harith : done + 1 + i = done + (i + 1) := by omega
        rw [harith]
        rfl

/-! ### Facts about sequential key deletion -/

theorem filter_ne_of_key_not_mem (x : PendingOp) (xs : List PendingOp)
    (h : x.key ∉ xs.map PendingOp.key) :
    (xs.filter fun op => op.key != x.key) = xs := by
  apply List.filter_eq_self.mpr
  intro a ha
  have hne : a.key ≠ x.key :=
    fun he => h (he ▸ List.mem_map_of_mem PendingOp.key ha)
  simpa using hne

theorem removeKeys_of_key_mem :
    ∀ (ks : List Nat) (l : List PendingOp),
      (∀ op ∈ l, op.key ∈ ks) → removeKeys ks l = [] := by
  intro ks
  induction ks with
  | nil =>
    intro l h
    cases l with
    | nil => rfl
    | cons x xs => exact absurd (h x (List.mem_cons_self x xs)) (List.not_mem_nil _)
  | cons k ks ih =>
    intro l h
    show removeKeys ks (l.filter fun op => op.key != k) = []
    apply ih
    intro op hop
    have h1 := List.mem_filter.mp hop
    rcases List.mem_cons.mp (h op h1.1) with he | hm
    · exact absurd he (by simpa using h1.2)
    · exact hm

theorem removeKeys_take_of_nodup :
    ∀ (i : Nat) (l : List PendingOp), (l.map PendingOp.key).Nodup →
      removeKeys ((l.take i).map PendingOp.key) l = l.drop i := by
  intro i
  induction i with
  | zero => intro l _; rfl
  | succ i ih =>
    intro l hnd
    cases l with
    | nil => rfl
    | cons x xs =>
      rw [List.map_cons, List.nodup_cons] at hnd
      show removeKeys ((xs.take i).map PendingOp.key)
        ((x :: xs).filter fun op => op.key != x.key) = xs.drop i
      rw [List.filter_cons]
      simp only [bne_self_eq_false, Bool.false_eq_true, if_false]
      rw [filter_ne_of_key_not_mem x xs hnd.1]
      exact ih xs hnd.2

/-! ### The well-formedness invariant and its preservation -/

theorem wf_initStore : StoreWF initStore :=
  ⟨List.Pairwise.nil, by intro op hop; exact absurd hop (List.not_mem_nil op)⟩

theorem wf_outboxAdd (st : Store) (api : String)
    (params : List (String × String)) (now : Nat) (tries : Option Nat)
    (h : StoreWF st) : StoreWF (outboxAdd st api params now tries) := by
  rcases h with ⟨hp, hb⟩
  constructor
  · apply List.pairwise_append.mpr
    refine ⟨hp, List.pairwise_singleton _ _, ?_⟩
    intro a ha b hb'
    rw [List.mem_singleton.mp hb']
    exact hb a ha
  · intro op hop
    rcases List.mem_append.mp hop with hold | hnew
    · exact Nat.lt_succ_of_lt (hb op hold)
    · rw [List.mem_singleton.mp hnew]
      exact Nat.lt_succ_self st.nextKey

theorem wf_outboxDelete (st : Store) (k : Nat) (h : StoreWF st) :
    StoreWF (outboxDelete st k) := by
  rcases h with ⟨hp, hb⟩
  exact ⟨hp.sublist (List.filter_sublist st.outbox),
    fun op hop => hb op ((List.filter_sublist st.outbox).subset hop)⟩

theorem wf_metaSet (st : Store) (v : Nat) (h : StoreWF st) :
    StoreWF (metaSet st v) := h

theorem wf_flushLoop
    (remote : String → List (String × String) → FetchResult)
    (total : Nat) (items : List PendingOp) (done : Nat) (st : Store)
    (h : StoreWF st) : StoreWF (flushLoop remote total items done st).store := by
  constructor
  · exact h.1.sublist (flushLoop_store_outbox_sublist remote total items done st)
  · intro op hop
    rw [flushLoop_store_nextKey]
    exact h.2 op
      ((flushLoop_store_outbox_sublist remote total items done st).subset hop)

theorem wf_flushQueue
    (remote : String → List (String × String) → FetchResult)
    (now : Nat) (st : Store) (h : StoreWF st) :
    StoreWF (flushQueue remote now st).store := by
  simp only [flushQueue]
  split
  · exact h
  · exact wf_metaSet _ now (wf_flushLoop remote _ _ 0 st h)

theorem wf_enqueue (st : Store) (api : String)
    (params : List (String × String)) (now : Nat) (h : StoreWF st) :
    StoreWF (enqueue st api params now) :=
  wf_outboxAdd st api params now (some 0) h

theorem reachable_wf (st : Store) (h : Reachable st) : StoreWF st := by
  induction h with
  | init => exact wf_initStore
  | step _ hs ih =>
    cases hs with
    | enqueue api params now => exact wf_enqueue _ api params now ih
    | remove k => exact wf_outboxDelete _ k ih
    | flush remote now => exact wf_flushQueue remote now _ ih

theorem wf_keys_nodup (st : Store) (h : StoreWF st) :
    (st.outbox.map PendingOp.key).Nodup :=
  List.Pairwise.map PendingOp.key (fun _ _ hlt => Nat.ne_of_lt hlt) h.1

/-! ### Unfolding `flushQueue` on a non-empty outbox -/

theorem flushQueue_store_of_ne_nil
    (remote : String → List (String × String) → FetchResult) (now : Nat)
    (st : Store) (h : st.outbox ≠ []) :
    (flushQueue remote now st).store =
      metaSet (flushLoop remote st.outbox.length st.outbox 0 st).store now := by
  simp only [flushQueue, outboxAll]
  rw [if_neg (fun h0 => h (List.length_eq_zero.mp h0))]

theorem flushQueue_events_of_ne_nil
    (remote : String → List (String × String) → FetchResult) (now : Nat)
    (st : Store) (h : st.outbox ≠ []) :
    (flushQueue remote now st).events =
      Event.queueStatus st.outbox.length st.lastSync
          (some (Info.syncing 0 st.outbox.length)) ::
        ((flushLoop remote st.outbox.length st.outbox 0 st).events ++
          [Event.queueStatus
              (flushLoop remote st.outbox.length st.outbox 0 st).store.outbox.length
              (some now) (some Info.finished),
            Event.syncDone]) := by
  simp only [flushQueue, outboxAll]
  rw [if_neg (fun h0 => h (List.length_eq_zero.mp h0))]
  rfl

theorem flushQueue_attempted_of_ne_nil
    (remote : String → List (String × String) → FetchResult) (now : Nat)
    (st : Store) (h : st.outbox ≠ []) :
    (flushQueue remote now st).attempted =
      (flushLoop remote st.outbox.length st.outbox 0 st).attempted := by
  simp only [flushQueue, outboxAll]
  rw [if_neg (fun h0 => h (List.length_eq_zero.mp h0))]

theorem flushQueue_done_of_ne_nil
    (remote : String → List (String × String) → FetchResult) (now : Nat)
    (st : Store) (h : st.outbox ≠ []) :
    (flushQueue remote now st).done =
      (flushLoop remote st.outbox.length st.outbox 0 st).done := by
  simp only [flushQueue, outboxAll]
  rw [if_neg (fun h0 => h (List.length_eq_zero.mp h0))]

theorem flushQueue_store_outbox_sublist
    (remote : String → List (String × String) → FetchResult) (now : Nat)
    (st : Store) :
    ((flushQueue remote now st).store.outbox).Sublist st.outbox := by
  simp only [flushQueue, outboxAll]
  split
  · exact List.Sublist.refl _
  · exact flushLoop_store_outbox_sublist remote st.outbox.length st.outbox 0 st

/-! ### The loop only looks at the remote through the items it replays -/

theorem flushLoop_remote_congr
    (remote remote2 : String → List (String × String) → FetchResult)
    (total : Nat) :
    ∀ (items : List PendingOp) (done : Nat) (st : Store),
      (∀ it ∈ items, remote it.api it.params = remote2 it.api it.params) →
      flushLoop remote total items done st = flushLoop remote2 total items done st := by
  intro items
  induction items with
  | nil => intro done st _; rfl
  | cons item rest ih =>
    intro done st hags
    have hhead := hags item (List.mem_cons_self item rest)
    have htail := fun it hit => hags it (List.mem_cons_of_mem item hit)
    cases h : remote2 item.api item.params with
    | throw =>
      rw [flushLoop_cons_throw remote total item rest done st (hhead.trans h),
        flushLoop_cons_throw remote2 total item rest done st h]
    | response httpOk rawBody =>
      rw [flushLoop_cons_response remote total item rest done st httpOk rawBody
          (hhead.trans h),
        flushLoop_cons_response remote2 total item rest done st httpOk rawBody h,
        ih (done + 1) (outboxDelete st item.key) htail]

/-! ### Operations outside the snapshot are untouched -/

theorem flushLoop_keeps_foreign
    (remote : String → List (String × String) → FetchResult) (total : Nat) :
    ∀ (items : List PendingOp) (done : Nat) (st : Store) (x : PendingOp),
      x ∈ st.outbox → x.key ∉ items.map PendingOp.key →
      x ∈ (flushLoop remote total items done st).store.outbox := by
  intro items
  induction items with
  | nil => intro done st x hx _; exact hx
  | cons item rest ih =>
    intro done st x hx hk
    rw [List.map_cons] at hk
    have hk1 : x.key ≠ item.key :=
      fun he => hk (by rw [he]; exact List.mem_cons_self _ _)
    have hk2 : x.key ∉ rest.map PendingOp.key :=
      fun hm => hk (List.mem_cons_of_mem _ hm)
    cases h : remote item.api item.params with
    | throw =>
      rw [flushLoop_cons_throw remote total item rest done st h]
      exact hx
    | response httpOk rawBody =>
      rw [flushLoop_cons_response remote total item rest done st httpOk rawBody h]
      exact ih (done + 1) (outboxDelete st item.key) x
        (List.mem_filter.mpr ⟨hx, by simpa using hk1⟩) hk2

theorem flushLoop_attempted_subset
    (remote : String → List (String × String) → FetchResult)
    (total : Nat) (items : List PendingOp) (done : Nat) (st : Store) :
    ∀ x ∈ (flushLoop remote total items done st).attempted, x ∈ items :=
  fun _ hx =>
    (flushLoop_attempted_front remote total items done st).sublist.subset hx

/-! ### The retry counter is stored as 0 and never consulted or mutated -/

theorem reachable_tries_zero (st : Store) (h : Reachable st) :
    ∀ op ∈ st.outbox, op.tries = 0 := by
  induction h with
  | init => intro op hop; exact absurd hop (List.not_mem_nil op)
  | step _ hs ih =>
    cases hs with
    | enqueue api params now =>
      intro op hop
      simp only [enqueue, outboxAdd] at hop
      rcases List.mem_append.mp hop with hold | hnew
      · exact ih op hold
      · rw [List.mem_singleton.mp hnew]
        rfl
    | remove k =>
      intro op hop
      exact ih op ((List.filter_sublist _).subset hop)
    | flush remote now =>
      intro op hop
      exact ih op ((flushQueue_store_outbox_sublist remote now _).subset hop)

theorem step_outbox_mem (st st' : Store) (hs : Step st st') :
    ∀ op ∈ st'.outbox, op ∈ st.outbox ∨ op.key = st.nextKey := by
  cases hs with
  | enqueue api params now =>
    intro op hop
    simp only [enqueue, outboxAdd] at hop
    rcases List.mem_append.mp hop with hold | hnew
    · exact Or.inl hold
    · right
      rw [List.mem_singleton.mp hnew]
  | remove k =>
    intro op hop
    exact Or.inl ((List.filter_sublist _).subset hop)
  | flush remote now =>
    intro op hop
    exact Or.inl ((flushQueue_store_outbox_sublist remote now st).subset hop)

theorem filter_key_map_setTries (l : List PendingOp) (n k : Nat) :
    ((l.map (setTries n)).filter fun op => op.key != k) =
      (l.filter fun op => op.key != k).map (setTries n) := by
  rw [List.filter_map]
  rfl

theorem outboxDelete_map_setTries (st : Store) (n k : Nat) :
    outboxDelete { st with outbox := st.outbox.map (setTries n) } k =
      { outboxDelete st k with
          outbox := (outboxDelete st k).outbox.map (setTries n) } := by
  simp only [outboxDelete]
  rw [filter_key_map_setTries]

theorem flushLoop_map_setTries
    (remote : String → List (String × String) → FetchResult)
    (total n : Nat) :
    ∀ (items : List PendingOp) (done : Nat) (st : Store),
      flushLoop remote total (items.map (setTries n)) done
          { st with outbox := st.outbox.map (setTries n) } =
        ⟨{ (flushLoop remote total items done st).store with
            outbox :=
              (flushLoop remote total items done st).store.outbox.map (setTries n) },
          (flushLoop remote total items done st).events,
          (flushLoop remote total items done st).done,
          (flushLoop remote total items done st).attempted.map (setTries n)⟩ := by
  intro items
  induction items with
  | nil => intro done st; rfl
  | cons item rest ih =>
    intro done st
    cases h : remote item.api item.params with
    | throw =>
      rw [List.map_cons,
        flushLoop_cons_throw remote total (setTries n item) (rest.map (setTries n))
          done { st with outbox := st.outbox.map (setTries n) } h,
        flushLoop_cons_throw remote total item rest done st h]
      rfl
    | response httpOk rawBody =>
      rw [List.map_cons,
        flushLoop_cons_response remote total (setTries n item) (rest.map (setTries n))
          done { st with outbox := st.outbox.map (setTries n) } httpOk rawBody h,
        flushLoop_cons_response remote total item rest done st httpOk rawBody h]
      rw [show (setTries n item).key = item.key from rfl,
        outboxDelete_map_setTries st n item.key,
        ih (done + 1) (outboxDelete st item.key)]
      rfl

theorem flushQueue_map_setTries
    (remote : String → List (String × String) → FetchResult)
    (now n : Nat) (st : Store) :
    flushQueue remote now { st with outbox := st.outbox.map (setTries n) } =
      ⟨{ (flushQueue remote now st).store with
          outbox := (flushQueue remote now st).store.outbox.map (setTries n) },
        (flushQueue remote now st).events,
        (flushQueue remote now st).done,
        (flushQueue remote now st).attempted.map (setTries n)⟩ := by
  by_cases he : st.outbox = []
  · simp [flushQueue, outboxAll, outboxCount, metaGet, he]
  · have hlen : ¬ st.outbox.length = 0 := fun h0 => he (List.length_eq_zero.mp h0)
    simp only [flushQueue, outboxAll, outboxCount, metaGet, metaSet, List.length_map]
    rw [if_neg hlen, if_neg hlen,
      flushLoop_map_setTries remote st.outbox.length n st.outbox 0 st]
    simp [List.length_map]

/-! ### Remaining helpers -/

theorem flushQueue_of_nil
    (remote : String → List (String × String) → FetchResult)
    (now : Nat) (st : Store) (h : st.outbox = []) :
    flushQueue remote now st =
      ⟨st, [Event.queueStatus 0 (metaGet st) (some Info.nothingPending)], 0, []⟩ := by
  simp [flushQueue, outboxAll, outboxCount, metaGet, h]

theorem progressEvents_mem_le :
    ∀ (n done total d t : Nat),
      Event.syncProgress d t ∈ progressEvents done total n → d ≤ done + n := by
  intro n
  induction n with
  | zero => intro done total d t hmem; exact absurd hmem (List.not_mem_nil _)
  | succ n ih =>
    intro done total d t hmem
    rcases List.mem_cons.mp hmem with h1 | h2
    · injection h1 with hd ht
      omega
    · have := ih (done + 1) total d t h2
      omega

/-! ### Concrete fixtures used by the witnesses and counterexamples -/

def okRemote : String → List (String × String) → FetchResult :=
  fun _ _ => FetchResult.response true
    (some { truthy := true, okField := true, code := none })

def rejectRemote : String → List (String × String) → FetchResult :=
  fun _ _ => FetchResult.response true
    (some { truthy := true, okField := false, code := none })

def noBodyRemote : String → List (String × String) → FetchResult :=
  fun _ _ => FetchResult.response true none

def markedRemote : String → List (String × String) → FetchResult :=
  fun _ _ => FetchResult.response true
    (some { truthy := true, okField := false, code := some "already_marked" })

def failARemote : String → List (String × String) → FetchResult :=
  fun api _ =>
    if api = "a" then FetchResult.throw
    else FetchResult.response true
      (some { truthy := true, okField := true, code := none })

def stA : Store := enqueue initStore "a" [("code", "x")] 10

def stAB : Store := enqueue stA "b" [] 11

def opA : PendingOp :=
  { key := 1, api := "a", params := [("code", "x")], createdAt := 10, tries := 0 }

def opX : PendingOp :=
  { key := 99, api := "x", params := [], createdAt := 50, tries := 0 }

def stAX : Store := { outbox := [opA, opX], nextKey := 100, lastSync := none }

/-! ### The claims -/

/-- C3 counterexample: draining the concrete empty store at time 42 does not
record 42 (or anything) as the `lastSync` metadata value — the claim says the
timestamp is still recorded. -/
theorem empty_drain_lastSync_cex :
    initStore.outbox = [] ∧
      metaGet (flushQueue okRemote 42 initStore).store ≠ some 42 := by decide

/-- C3 (amended): a drain invoked with zero pending operations emits exactly
one status update indicating nothing pending and no progress events, but it
returns early and leaves the store — in particular the `lastSync` metadata
value — unchanged instead of recording the current timestamp. -/
theorem empty_drain_amended
    (remote : String → List (String × String) → FetchResult)
    (now : Nat) (st : Store) (h : st.outbox = []) :
    flushQueue remote now st =
      ⟨st, [Event.queueStatus 0 (metaGet st) (some Info.nothingPending)], 0, []⟩ :=
  flushQueue_of_nil remote now st h

/-- C3 witness: the amended claim at the concrete empty store. -/
theorem empty_drain_amended_witness :
    flushQueue okRemote 7 initStore =
      ⟨initStore,
        [Event.queueStatus 0 (metaGet initStore) (some Info.nothingPending)], 0, []⟩ :=
  empty_drain_amended okRemote 7 initStore rfl

/-- C4: an operation whose remote request completes but signals logical
failure (`classifySuccess` is false) is deleted from the store, the done
counter is incremented, and a progress event is emitted; its key is gone from
the resulting store, so it is never retried. -/
theorem logical_rejection_terminal
    (remote : String → List (String × String) → FetchResult)
    (total : Nat) (item : PendingOp) (rest : List PendingOp) (done : Nat)
    (st : Store) (httpOk : Bool) (rawBody : Option JsBody)
    (hresp : remote item.api item.params = FetchResult.response httpOk rawBody)
    (hfail : classifySuccess httpOk (bodyOrEmpty rawBody) = false) :
    (flushLoop remote total (item :: rest) done st).store =
        (flushLoop remote total rest (done + 1) (outboxDelete st item.key)).store ∧
      (flushLoop remote total (item :: rest) done st).done =
        (flushLoop remote total rest (done + 1) (outboxDelete st item.key)).done ∧
      (flushLoop remote total (item :: rest) done st).events =
        Event.syncProgress (done + 1) total ::
          (flushLoop remote total rest (done + 1) (outboxDelete st item.key)).events ∧
      item.key ∉
        ((flushLoop remote total (item :: rest) done st).store.outbox.map
          PendingOp.key) := by
  rw [flushLoop_cons_response remote total item rest done st httpOk rawBody hresp]
  refine ⟨rfl, rfl, rfl, ?_⟩
  intro hmem
  rcases List.mem_map.mp hmem with ⟨op, hop, hkey⟩
  have hsub := (flushLoop_store_outbox_sublist remote total rest (done + 1)
    (outboxDelete st item.key)).subset hop
  have hne := (List.mem_filter.mp hsub).2
  rw [hkey] at hne
  simp at hne

/-- C4 witness: a concrete rejected operation (HTTP success, body with
`ok: false` and no code) is deleted, counted, and reported. -/
theorem logical_rejection_terminal_witness :
    (flushLoop rejectRemote 1 (opA :: []) 0 stA).store =
        (flushLoop rejectRemote 1 [] (0 + 1) (outboxDelete stA opA.key)).store ∧
      (flushLoop rejectRemote 1 (opA :: []) 0 stA).done =
        (flushLoop rejectRemote 1 [] (0 + 1) (outboxDelete stA opA.key)).done ∧
      (flushLoop rejectRemote 1 (opA :: []) 0 stA).events =
        Event.syncProgress (0 + 1) 1 ::
          (flushLoop rejectRemote 1 [] (0 + 1) (outboxDelete stA opA.key)).events ∧
      opA.key ∉
        ((flushLoop rejectRemote 1 (opA :: []) 0 stA).store.outbox.map
          PendingOp.key) :=
  logical_rejection_terminal rejectRemote 1 opA [] 0 stA true
    (some { truthy := true, okField := false, code := none }) rfl (by decide)

/-- C5: a response with HTTP success and a decoded body carrying
`code: "already_marked"` makes the drain behave exactly (same store, events,
counter, attempts) as a response whose body carries `ok: true`. -/
theorem already_marked_like_ok
    (remote remote2 : String → List (String × String) → FetchResult)
    (total : Nat) (item : PendingOp) (rest : List PendingOp) (done : Nat)
    (st : Store) (okField2 : Bool)
    (h1 : remote item.api item.params =
      FetchResult.response true
        (some { truthy := true, okField := okField2, code := some "already_marked" }))
    (h2 : remote2 item.api item.params =
      FetchResult.response true
        (some { truthy := true, okField := true, code := none }))
    (hrest : ∀ it ∈ rest, remote it.api it.params = remote2 it.api it.params) :
    flushLoop remote total (item :: rest) done st =
      flushLoop remote2 total (item :: rest) done st := by
  rw [flushLoop_cons_response remote total item rest done st true _ h1,
    flushLoop_cons_response remote2 total item rest done st true _ h2,
    flushLoop_remote_congr remote remote2 total rest (done + 1)
      (outboxDelete st item.key) hrest]

/-- C5 witness: the identical behaviour at a concrete single-item store. -/
theorem already_marked_like_ok_witness :
    flushLoop markedRemote 1 (opA :: []) 0 stA =
      flushLoop okRemote 1 (opA :: []) 0 stA :=
  already_marked_like_ok markedRemote okRemote 1 opA [] 0 stA false rfl rfl
    (fun it hit => absurd hit (List.not_mem_nil it))

/-- C6: a response body that fails to decode as JSON is coerced to the empty
object and never aborts the drain: the operation is still processed (progress
emitted) and the loop continues with the next operation. -/
theorem decode_failure_nonfatal
    (remote : String → List (String × String) → FetchResult)
    (total : Nat) (item : PendingOp) (rest : List PendingOp) (done : Nat)
    (st : Store) (httpOk : Bool)
    (hresp : remote item.api item.params = FetchResult.response httpOk none) :
    bodyOrEmpty none = emptyObject ∧
      (flushLoop remote total (item :: rest) done st).events =
        Event.syncProgress (done + 1) total ::
          (flushLoop remote total rest (done + 1) (outboxDelete st item.key)).events ∧
      (flushLoop remote total (item :: rest) done st).attempted =
        item ::
          (flushLoop remote total rest (done + 1) (outboxDelete st item.key)).attempted := by
  refine ⟨rfl, ?_, ?_⟩ <;>
    rw [flushLoop_cons_response remote total item rest done st httpOk none hresp]

/-- C6 witness: a concrete undecodable body at a single-item store. -/
theorem decode_failure_nonfatal_witness :
    bodyOrEmpty none = emptyObject ∧
      (flushLoop noBodyRemote 1 (opA :: []) 0 stA).events =
        Event.syncProgress (0 + 1) 1 ::
          (flushLoop noBodyRemote 1 [] (0 + 1) (outboxDelete stA opA.key)).events ∧
      (flushLoop noBodyRemote 1 (opA :: []) 0 stA).attempted =
        opA ::
          (flushLoop noBodyRemote 1 [] (0 + 1) (outboxDelete stA opA.key)).attempted :=
  decode_failure_nonfatal noBodyRemote 1 opA [] 0 stA true rfl

/-- C7 counterexample: a drain attempt over the concrete empty store completes
without broadcasting any done event, so "exactly one done event per completed
drain attempt" fails there. -/
theorem sync_done_empty_drain_cex :
    (flushQueue okRemote 0 initStore).events.count Event.syncDone ≠ 1 := by decide

/-- C7 (amended): every drain attempt that finds at least one pending
operation broadcasts exactly one done event, whether it consumes all
operations or stops early on transport failure; a drain with zero pending
operations broadcasts none. -/
theorem sync_done_once_nonempty
    (remote : String → List (String × String) → FetchResult)
    (now : Nat) (st : Store) (h : st.outbox ≠ []) :
    (flushQueue remote now st).events.count Event.syncDone = 1 := by
  rw [flushQueue_events_of_ne_nil remote now st h]
  have h0 : (flushLoop remote st.outbox.length st.outbox 0 st).events.count
      Event.syncDone = 0 := by
    apply List.count_eq_zero.mpr
    intro hmem
    rcases flushLoop_events_shape remote st.outbox.length st.outbox 0 st
      Event.syncDone hmem with ⟨d, hd⟩
    exact Event.noConfusion hd
  simp [List.count_cons, List.count_append, h0]

/-- C7 witness: the amended claim at a concrete one-item store. -/
theorem sync_done_once_nonempty_witness :
    (flushQueue okRemote 3 stA).events.count Event.syncDone = 1 :=
  sync_done_once_nonempty okRemote 3 stA (by decide)

/-- C8: remove (delete-by-key) is idempotent: deleting the same key twice has
the same effect on the store as deleting it once, and deleting a key that is
not in the store leaves the pending count — indeed the whole store —
unchanged (and, being total, never raises). -/
theorem remove_idempotent (st : Store) (k : Nat) :
    outboxDelete (outboxDelete st k) k = outboxDelete st k ∧
      (k ∉ st.outbox.map PendingOp.key →
        outboxCount (outboxDelete st k) = outboxCount st ∧
          outboxDelete st k = st) := by
  constructor
  · simp [outboxDelete, List.filter_filter]
  · intro hk
    have hself : (st.outbox.filter fun op => op.key != k) = st.outbox := by
      apply List.filter_eq_self.mpr
      intro a ha
      have hne : a.key ≠ k :=
        fun he => hk (he ▸ List.mem_map_of_mem PendingOp.key ha)
      simpa using hne
    exact ⟨by simp [outboxCount, outboxDelete, hself], by simp [outboxDelete, hself]⟩

/-- C8 witness: deleting the absent key 5 from a concrete one-item store. -/
theorem remove_idempotent_witness :
    outboxDelete (outboxDelete stA 5) 5 = outboxDelete stA 5 ∧
      (outboxCount (outboxDelete stA 5) = outboxCount stA ∧
        outboxDelete stA 5 = stA) :=
  ⟨(remove_idempotent stA 5).1, (remove_idempotent stA 5).2 (by decide)⟩

/-- C1: if the fetch for the i-th pending operation throws (and the ones
before it all completed), the drain halts: the store keeps exactly operation
i and everything after it, no progress event counts beyond i, and a later
drain against a remote that never throws empties the store. -/
theorem transport_failure_halts
    (st : Store) (remote : String → List (String × String) → FetchResult)
    (now i : Nat) (hreach : Reachable st) (hi : i < st.outbox.length)
    (hthrow : remote (st.outbox.get ⟨i, hi⟩).api
      (st.outbox.get ⟨i, hi⟩).params = FetchResult.throw)
    (hbefore : ∀ (j : Nat) (hj : j < i),
      remote (st.outbox.get ⟨j, Nat.lt_trans hj hi⟩).api
        (st.outbox.get ⟨j, Nat.lt_trans hj hi⟩).params ≠ FetchResult.throw) :
    (flushQueue remote now st).store.outbox = st.outbox.drop i ∧
      (∀ d t, Event.syncProgress d t ∈ (flushQueue remote now st).events → d ≤ i) ∧
      ∀ (remote2 : String → List (String × String) → FetchResult) (now2 : Nat),
        (∀ (a : String) (p : List (String × String)),
          remote2 a p ≠ FetchResult.throw) →
        (flushQueue remote2 now2 (flushQueue remote now st).store).store.outbox =
          [] := by
  have hne : st.outbox ≠ [] := by
    intro h0
    rw [h0] at hi
    exact absurd hi (Nat.not_lt_zero i)
  have hhalt := flushLoop_halt remote st.outbox.length st.outbox i 0 st hi
    hthrow hbefore
  have hstore : (flushQueue remote now st).store.outbox = st.outbox.drop i := by
    rw [flushQueue_store_of_ne_nil remote now st hne]
    show (flushLoop remote st.outbox.length st.outbox 0 st).store.outbox =
      st.outbox.drop i
    rw [hhalt]
    show removeKeys ((st.outbox.take i).map PendingOp.key) st.outbox =
      st.outbox.drop i
    exact removeKeys_take_of_nodup i st.outbox
      (wf_keys_nodup st (reachable_wf st hreach))
  refine ⟨hstore, ?_, ?_⟩
  · intro d t hmem
    rw [flushQueue_events_of_ne_nil remote now st hne] at hmem
    rcases List.mem_cons.mp hmem with h1 | hmem2
    · exact Event.noConfusion h1
    rcases List.mem_append.mp hmem2 with h2 | h3
    · rw [hhalt] at h2
      have hle := progressEvents_mem_le i 0 st.outbox.length d t h2
      omega
    · rcases List.mem_cons.mp h3 with h4 | h5
      · exact Event.noConfusion h4
      rcases List.mem_cons.mp h5 with h6 | h7
      · exact Event.noConfusion h6
      · exact absurd h7 (List.not_mem_nil _)
  · intro remote2 now2 hall
    by_cases hd : (flushQueue remote now st).store.outbox = []
    · rw [flushQueue_of_nil remote2 now2 _ hd]
      exact hd
    · rw [flushQueue_store_of_ne_nil remote2 now2 _ hd]
      show (flushLoop remote2 ((flushQueue remote now st).store.outbox).length
        ((flushQueue remote now st).store.outbox) 0
        (flushQueue remote now st).store).store.outbox = []
      rw [flushLoop_all_response remote2 _ _ 0 _
        (fun it _ => hall it.api it.params)]
      show removeKeys (((flushQueue remote now st).store.outbox).map PendingOp.key)
        ((flushQueue remote now st).store.outbox) = []
      exact removeKeys_of_key_mem _ _
        (fun op hop => List.mem_map_of_mem PendingOp.key hop)

/-- C1 witness: two queued operations, the remote throws on the first; both
stay in the store, no progress beyond 0 is reported, and a drain against a
never-throwing remote empties the store. -/
theorem transport_failure_halts_witness :
    (flushQueue failARemote 99 stAB).store.outbox = stAB.outbox.drop 0 ∧
      (∀ d t, Event.syncProgress d t ∈ (flushQueue failARemote 99 stAB).events →
        d ≤ 0) ∧
      ∀ (remote2 : String → List (String × String) → FetchResult) (now2 : Nat),
        (∀ (a : String) (p : List (String × String)),
          remote2 a p ≠ FetchResult.throw) →
        (flushQueue remote2 now2 (flushQueue failARemote 99 stAB).store).store.outbox =
          [] :=
  transport_failure_halts stAB failARemote 99 0
    (Reachable.step
      (Reachable.step Reachable.init (Step.enqueue initStore "a" [("code", "x")] 10))
      (Step.enqueue stA "b" [] 11))
    (by decide) (by decide) (fun j hj => absurd hj (Nat.not_lt_zero j))

/-- C2: on every reachable store, listing all pending operations yields them
in ascending key order (insertion order), and the operations a drain attempts
form a prefix of that list — each is attempted only after all earlier ones
resolved. -/
theorem listAll_order_and_replay_order (st : Store) (h : Reachable st) :
    (outboxAll st).Pairwise (fun a b => a.key < b.key) ∧
      ∀ (remote : String → List (String × String) → FetchResult) (now : Nat),
        (flushQueue remote now st).attempted <+: outboxAll st := by
  refine ⟨(reachable_wf st h).1, ?_⟩
  intro remote now
  by_cases he : st.outbox = []
  · rw [flushQueue_of_nil remote now st he]
    exact ⟨outboxAll st, rfl⟩
  · rw [flushQueue_attempted_of_ne_nil remote now st he]
    exact flushLoop_attempted_front remote st.outbox.length st.outbox 0 st

/-- C2 witness: the ordering and replay-order property at a concrete
two-item reachable store. -/
theorem listAll_order_and_replay_order_witness :
    (outboxAll stAB).Pairwise (fun a b => a.key < b.key) ∧
      ∀ (remote : String → List (String × String) → FetchResult) (now : Nat),
        (flushQueue remote now stAB).attempted <+: outboxAll stAB :=
  listAll_order_and_replay_order stAB
    (Reachable.step
      (Reachable.step Reachable.init (Step.enqueue initStore "a" [("code", "x")] 10))
      (Step.enqueue stA "b" [] 11))

/-- C9: on every reachable store all stored operations have `tries = 0`; a
transition only keeps stored operations verbatim or creates fresh-key
records (never updates one in place); and a drain's behaviour — resulting
store modulo the mapped field, events, and counter — is invariant under
rewriting every stored `tries` value, i.e. the field is never consulted. -/
theorem tries_inert (st : Store) (h : Reachable st) :
    (∀ op ∈ st.outbox, op.tries = 0) ∧
      (∀ st', Step st st' → ∀ op ∈ st'.outbox,
        op ∈ st.outbox ∨ op.key ∉ st.outbox.map PendingOp.key) ∧
      ∀ (remote : String → List (String × String) → FetchResult) (now n : Nat),
        flushQueue remote now { st with outbox := st.outbox.map (setTries n) } =
          ⟨{ (flushQueue remote now st).store with
              outbox :=
                (flushQueue remote now st).store.outbox.map (setTries n) },
            (flushQueue remote now st).events,
            (flushQueue remote now st).done,
            (flushQueue remote now st).attempted.map (setTries n)⟩ := by
  refine ⟨reachable_tries_zero st h, ?_,
    fun remote now n => flushQueue_map_setTries remote now n st⟩
  intro st' hs op hop
  rcases step_outbox_mem st st' hs op hop with hold | hkey
  · exact Or.inl hold
  · right
    intro hmem
    rcases List.mem_map.mp hmem with ⟨op2, hop2, hkey2⟩
    have hlt := (reachable_wf st h).2 op2 hop2
    omega

/-- C9 witness: the retry-counter facts at a concrete one-item reachable
store. -/
theorem tries_inert_witness :
    (∀ op ∈ stA.outbox, op.tries = 0) ∧
      (∀ st', Step stA st' → ∀ op ∈ st'.outbox,
        op ∈ stA.outbox ∨ op.key ∉ stA.outbox.map PendingOp.key) ∧
      ∀ (remote : String → List (String × String) → FetchResult) (now n : Nat),
        flushQueue remote now { stA with outbox := stA.outbox.map (setTries n) } =
          ⟨{ (flushQueue remote now stA).store with
              outbox :=
                (flushQueue remote now stA).store.outbox.map (setTries n) },
            (flushQueue remote now stA).events,
            (flushQueue remote now stA).done,
            (flushQueue remote now stA).attempted.map (setTries n)⟩ :=
  tries_inert stA
    (Reachable.step Reachable.init (Step.enqueue initStore "a" [("code", "x")] 10))

/-- C10: the drain loop runs over the snapshot `items` read once by
`outboxAll`; an operation that is in the store but not in the snapshot (e.g.
enqueued after the read — its fresh key is outside the snapshot's keys) is
never attempted by that pass and remains in the store for the next drain. -/
theorem drain_snapshot
    (remote : String → List (String × String) → FetchResult)
    (total : Nat) (items : List PendingOp) (done : Nat) (st : Store)
    (x : PendingOp) (hx : x ∈ st.outbox)
    (hk : x.key ∉ items.map PendingOp.key) :
    x ∈ (flushLoop remote total items done st).store.outbox ∧
      x ∉ (flushLoop remote total items done st).attempted := by
  refine ⟨flushLoop_keeps_foreign remote total items done st x hx hk, ?_⟩
  intro hmem
  exact hk (List.mem_map_of_mem PendingOp.key
    (flushLoop_attempted_subset remote total items done st x hmem))

/-- C10 witness: a concrete operation enqueued after the snapshot read is
kept and never attempted. -/
theorem drain_snapshot_witness :
    opX ∈ (flushLoop okRemote 1 [opA] 0 stAX).store.outbox ∧
      opX ∉ (flushLoop okRemote 1 [opA] 0 stAX).attempted :=
  drain_snapshot okRemote 1 [opA] 0 stAX opX (by decide) (by decide)

end SW
